import Mathlib

/-!
A shallow embedding of `src/patzm/crawlers/linkedin_utils.py`.

Python strings are modelled as `List Char`, Python floats carrying similarity
scores as exact rationals `ℚ`, and the selenium-driven browser as explicit
environment records that describe what the external site presents at each
interaction point (which page a navigation lands on, which elements appear,
whether a bounded wait times out).  Every function below mirrors the control
flow of the corresponding Python function; session-level functions
additionally return the list of observable events they perform, so that
ordering properties ("a credential login happens before failure is
reported") can be stated.
-/

/-! ## SimilarityMatcher: the external `Levenshtein.ratio` -/

/-- Cost structure of the alignment underlying the external
`Levenshtein.ratio`: insertions and deletions cost 1, substituting one
character by a different one costs 2 (never cheaper than a delete plus an
insert), so only insertions and deletions matter. -/
def indelCost : Levenshtein.Cost Char Char ℕ where
  delete _ := 1
  insert _ := 1
  substitute a b := if a = b then 0 else 2

/-- Modelled from the spec: the `Levenshtein` package imported by
`linkedin_utils.py` is an external dependency whose code is not part of this
repository.  `indel_dist a b` is the edit distance it uses for `ratio`:
the minimal number of single-character insertions and deletions turning `a`
into `b`. -/
def indel_dist (a b : List Char) : ℕ := levenshtein indelCost a b

/-- Modelled from the spec: `Levenshtein.ratio a b`, the normalized
edit-distance similarity in `[0,1]` used by `search_profile` as the sole
identity-confirmation signal.  Its documented value is
`1 - indel_dist a b / (|a| + |b|)`, and `1` when both strings are empty;
here it is written as a single integer fraction of the same value. -/
def Levenshtein_ratio (a b : List Char) : ℚ :=
  if a.length + b.length = 0 then 1
  else Rat.divInt ((a.length + b.length : ℤ) - (indel_dist a b : ℤ)) (a.length + b.length : ℤ)

/-- The literal `0.3` compared against `match_rating` in `search_profile`,
as the exact rational `3/10`. -/
def pointThree : ℚ := Rat.divInt 3 10

/-! ## Browser primitives -/

/-- `LinkedInProvider.wait_for`: polls for an element up to a timeout and
returns `true` when it appears, `false` on `TimeoutException`.  The
environment tells whether the awaited element appears in time. -/
def wait_for (appears : Bool) : Bool := appears

/-- Environment of one `validate_login` call: the URL the browser shows after
navigating to the my-network page, and whether the `mn-community-summary`
marker element appears before the bounded wait times out. -/
structure ValidatePage where
  landedUrl : List Char
  markerAppears : Bool
deriving DecidableEq

/-- The authenticated-only URL `validate_login` navigates to. -/
def mynetwork_url : List Char := "https://www.linkedin.com/mynetwork/".toList

/-- `LinkedInProvider.validate_login`: navigate to the my-network page, run
`wait_for` on the summary marker (the source drops its Boolean result), then
report whether `current_url` equals the my-network URL. -/
def validate_login (page : ValidatePage) : Bool :=
  let _summary_wait := wait_for page.markerAppears
  decide (page.landedUrl = mynetwork_url)

/-! ## Session establishment -/

/-- Login credentials: the `[linkedin]` section of the credentials file, or
an interactively prompted pair. -/
structure Credentials where
  username : List Char
  password : List Char
deriving DecidableEq

/-- Observable side effects of session establishment, in execution order. -/
inductive SessionEvent where
  | loadCookies
  | validateCall (result : Bool)
  | promptCredentials
  | readCredentialsFile (path : List Char)
  | writeTemplateFile (sectionName user pass : List Char)
  | navigate (url : List Char)
  | submitLogin (user pass : List Char)
  | checkpointPrompt
  | manageAccountPrompt
  | saveCookies
deriving DecidableEq

/-- Environment of one `activate_session` run: the state of the two files it
may consult, the operator's interactive answers, the contents of an existing
credentials file, and the browser's behaviour (indexed by how many
`validate_login` calls happened before) at each interaction point. -/
structure SessionEnv where
  cookieFileExists : Bool
  credFileExists : Bool
  promptedUser : List Char
  promptedPass : List Char
  fileUser : List Char
  filePass : List Char
  validatePages : ℕ → ValidatePage
  loginRedirected : Bool
  checkpointRounds : ℕ
  manageAccountShown : Bool

/-- `LinkedInProvider._get_login_credentials`.  `login = some []` is the
empty-string interactive mode; `none` resolves to the default
`credentials.ini` under the config dir; any other string is an explicit
path.  When the resolved file does not exist the source writes a template
credentials file (section `linkedin`, placeholder username and password) and
calls `exit(0)`; the `none` result models that clean halt. -/
def get_login_credentials (env : SessionEnv) (configDir : List Char)
    (login : Option (List Char)) : List SessionEvent × Option Credentials :=
  if login = some [] then
    ([.promptCredentials], some ⟨env.promptedUser, env.promptedPass⟩)
  else
    let path := match login with
      | none => configDir ++ "/credentials.ini".toList
      | some p => p
    if env.credFileExists = false then
      ([.writeTemplateFile "linkedin".toList "your@email.com".toList "your-password".toList],
        none)
    else
      ([.readCredentialsFile path], some ⟨env.fileUser, env.filePass⟩)

/-- The login page URL navigated to by `LinkedInProvider.login`. -/
def login_url : List Char := "https://www.linkedin.com/login".toList

/-- Events after the submit click in `LinkedInProvider.login`: the checkpoint
loop blocks on the operator once per round in which the browser still shows a
checkpoint URL, then the unautomated account-management dialog may require
one more manual approval. -/
def post_submit_events (env : SessionEnv) : List SessionEvent :=
  List.replicate env.checkpointRounds .checkpointPrompt
    ++ (if env.manageAccountShown then [.manageAccountPrompt] else [])

/-- `LinkedInProvider.login`: navigate to the login page; if the browser was
redirected away from it and `validate_login` confirms an active session,
return without submitting anything ("Already logged in"); otherwise fill in
the credentials and click submit, then handle checkpoint and
account-management interstitials.  `v` counts `validate_login` calls made so
far; the updated count is returned. -/
def login_flow (env : SessionEnv) (v : ℕ) (c : Credentials) : List SessionEvent × ℕ :=
  if env.loginRedirected then
    if validate_login (env.validatePages v) then
      ([.navigate login_url, .validateCall true], v + 1)
    else
      ([.navigate login_url, .validateCall false, .submitLogin c.username c.password]
        ++ post_submit_events env, v + 1)
  else
    ([.navigate login_url, .submitLogin c.username c.password] ++ post_submit_events env, v)

/-- Result of `activate_session`: `success` is the `True` return,
`loginFailed` the `False` return (turned into a `RuntimeError` by the
constructor), and `needsOperatorInput` the `exit(0)` taken after writing the
template credentials file. -/
inductive SessionOutcome where
  | success
  | loginFailed
  | needsOperatorInput
deriving DecidableEq

/-- The tail of `activate_session` after the cookie attempt: obtain
credentials (possibly halting with the template file), run `login`, validate,
and on success persist the cookies. -/
def credentials_phase (env : SessionEnv) (configDir : List Char) (login : Option (List Char))
    (v : ℕ) (evs : List SessionEvent) : List SessionEvent × SessionOutcome :=
  match get_login_credentials env configDir login with
  | (cevs, none) => (evs ++ cevs, .needsOperatorInput)
  | (cevs, some c) =>
    let lf := login_flow env v c
    if validate_login (env.validatePages lf.2) then
      (evs ++ cevs ++ lf.1 ++ [.validateCall true, .saveCookies], .success)
    else
      (evs ++ cevs ++ lf.1 ++ [.validateCall false], .loginFailed)

/-- `LinkedInProvider.activate_session`: when no explicit login mode is given
and a cookie file exists, load the cookies and validate; a successful
validation returns `True` immediately, otherwise fall through to the
credential phase shared with the no-cookie path. -/
def activate_session (env : SessionEnv) (configDir : List Char)
    (login : Option (List Char)) : List SessionEvent × SessionOutcome :=
  if login = none ∧ env.cookieFileExists then
    if validate_login (env.validatePages 0) then
      ([.loadCookies, .validateCall true], .success)
    else
      credentials_phase env configDir login 1 [.loadCookies, .validateCall false]
  else
    credentials_phase env configDir login 0 []

/-! ## SearchPipeline: profile search -/

/-- Python's substring containment test `needle in hay` on strings. -/
def strContains (hay needle : List Char) : Bool :=
  hay.tails.any fun t => needle.isPrefixOf t

/-- The style marker singling out the profile's primary name heading. -/
def xlargeClass : List Char := "text-heading-xlarge".toList

/-- One `h1` element of an opened profile page: its `class` attribute string
and its text. -/
structure Heading where
  classAttr : List Char
  text : List Char
deriving DecidableEq

/-- The name-validation loop of `search_profile` over the `h1` elements: the
state is the pair `(match, match_rating)`, initially `(False, 0)`.  Elements
whose class attribute contains the primary-heading marker are rated against
`name`; the loop breaks at the first rating strictly above `0.3`. -/
def heading_scan (name : List Char) : List Heading → Bool × ℚ → Bool × ℚ
  | [], st => st
  | he :: rest, st =>
    if strContains he.classAttr xlargeClass then
      let match_rating := Levenshtein_ratio he.text name
      if decide (pointThree < match_rating) then (true, match_rating)
      else heading_scan name rest (false, match_rating)
    else heading_scan name rest st

/-- What the site presents for one query variant of `search_profile`: how
many `entity-result` elements the result page shows, whether the
`profile-content` marker loads after clicking the first result, the `h1`
elements of the opened profile, and its URL. -/
structure VariantPage where
  resultCount : ℕ
  profileLoads : Bool
  headings : List Heading
  profileUrl : List Char
deriving DecidableEq

/-- The `for employment in (present, past)` loop of `search_profile`.  Besides
the returned `(url, score)` pair it counts how many variants were queried
(each loop iteration issues one `driver.get` on the variant's query URL).
A variant with no results, a timed-out profile load, or no accepted heading
falls through to the next variant; a match returns immediately. -/
def search_profile_go (name : List Char) : List VariantPage → (Option (List Char) × ℚ) × ℕ
  | [] => ((none, 0), 0)
  | v :: rest =>
    if v.resultCount = 0 then
      let r := search_profile_go name rest
      (r.1, r.2 + 1)
    else if wait_for v.profileLoads = false then
      let r := search_profile_go name rest
      (r.1, r.2 + 1)
    else
      let scanned := heading_scan name v.headings (false, 0)
      if scanned.1 then ((some v.profileUrl, scanned.2), 1)
      else
        let r := search_profile_go name rest
        (r.1, r.2 + 1)

/-- `search_profile`: try the `currentCompany` variant, then the
`pastCompany` variant. -/
def search_profile (name : List Char) (present past : VariantPage) :
    (Option (List Char) × ℚ) × ℕ :=
  search_profile_go name [present, past]

/-! ## SearchPipeline: company id extraction -/

/-- The URL-encoded double-quote delimiter of `company_id_pattern`. -/
def pct22 : List Char := "%22".toList

/-- Left-to-right scan implementing `re.findall` for the pattern
`%22(\d+)%22`: at each position try to match the opening `%22`, a maximal
non-empty run of digits, and the closing `%22`; on success capture the digits
and resume after the whole match (Python's non-overlapping semantics, so the
closing delimiter is consumed), otherwise advance one character.  `skip`
counts characters of the current match still to be consumed. -/
def findall_pct22_go (skip : ℕ) : List Char → List (List Char)
  | [] => []
  | c :: rest =>
    match skip with
    | k + 1 => findall_pct22_go k rest
    | 0 =>
      if pct22.isPrefixOf (c :: rest) then
        let after := rest.drop 2
        let ds := after.takeWhile Char.isDigit
        if ds = [] then findall_pct22_go 0 rest
        else if pct22.isPrefixOf (after.drop ds.length) then
          ds :: findall_pct22_go (5 + ds.length) rest
        else findall_pct22_go 0 rest
      else findall_pct22_go 0 rest

/-- `company_id_pattern.findall(employee_search_url)` of `search_company`. -/
def company_id_findall (url : List Char) : List (List Char) :=
  findall_pct22_go 0 url

/-- One element of the company page's summary info list: its tag name and
(for links) its `href` attribute. -/
structure InfoItem where
  tagName : List Char
  href : List Char
deriving DecidableEq

/-- The second pass of `search_company` over one company's info-list items:
the first item whose tag is `a` has its `href` scanned for ids and the loop
breaks; when no such item exists the company's `ids` field keeps its default
empty value. -/
def company_ids : List InfoItem → List (List Char)
  | [] => []
  | ci :: rest =>
    if ci.tagName = "a".toList then company_id_findall ci.href
    else company_ids rest

/-! ## Username extraction -/

/-- The literal part of `LinkedInProvider._username_pattern`. -/
def in_url_pat : List Char := "https://www.linkedin.com/in/".toList

/-- Scan implementing `re.search` for `https://www\.linkedin\.com/in/([^/]+)/?`:
at each position, if the literal prefix matches and at least one non-slash
character follows, the captured group is the maximal run of non-slash
characters; otherwise advance one character.  The optional trailing slash
does not affect the captured group. -/
def username_search : List Char → Option (List Char)
  | [] => none
  | c :: rest =>
    if in_url_pat.isPrefixOf (c :: rest) then
      let seg := ((c :: rest).drop in_url_pat.length).takeWhile fun ch => ch != '/'
      if seg = [] then username_search rest
      else some seg
    else username_search rest

/-- `LinkedInProvider.get_username_from_url`: the captured group of the first
match of the username pattern, or `None` when the pattern does not occur. -/
def get_username_from_url (url : List Char) : Option (List Char) :=
  username_search url

/-- A decomposition of `s` witnessing one occurrence of the username pattern:
the literal prefix occurs right after `pre`, followed by at least one
non-slash character. -/
def GoodSplit (s pre suf : List Char) : Prop :=
  s = pre ++ in_url_pat ++ suf ∧ suf.takeWhile (fun ch => ch != '/') ≠ []

/-! ## Lemmas: the similarity matcher -/

theorem indelCost_delete (x : Char) : indelCost.delete x = 1 := rfl

theorem indelCost_insert (x : Char) : indelCost.insert x = 1 := rfl

theorem indelCost_substitute (x y : Char) :
    indelCost.substitute x y = if x = y then 0 else 2 := rfl

theorem indel_dist_nil_left (b : List Char) : indel_dist [] b = b.length := by
  induction b with
  | nil => simp [indel_dist]
  | cons y ys ih =>
    simp only [indel_dist, levenshtein_nil_cons, indelCost_insert] at ih ⊢
    simp [ih]
    omega

theorem indel_dist_nil_right (a : List Char) : indel_dist a [] = a.length := by
  induction a with
  | nil => simp [indel_dist]
  | cons x xs ih =>
    simp only [indel_dist, levenshtein_cons_nil, indelCost_delete] at ih ⊢
    simp [ih]
    omega

theorem indel_dist_self (a : List Char) : indel_dist a a = 0 := by
  induction a with
  | nil => simp [indel_dist]
  | cons x xs ih =>
    simp only [indel_dist, levenshtein_cons_cons, indelCost_delete, indelCost_insert,
      indelCost_substitute, eq_self_iff_true, ite_true] at ih ⊢
    omega

theorem indel_dist_comm (a b : List Char) : indel_dist a b = indel_dist b a := by
  induction a generalizing b with
  | nil =>
    rw [indel_dist_nil_left, indel_dist_nil_right]
  | cons x xs iha =>
    induction b with
    | nil => rw [indel_dist_nil_right, indel_dist_nil_left]
    | cons y ys ihb =>
      have h1 := iha (y :: ys)
      have h3 := iha ys
      simp only [indel_dist, levenshtein_cons_cons, indelCost_delete, indelCost_insert,
        indelCost_substitute] at h1 h3 ihb ⊢
      rw [h1, h3, ihb]
      by_cases hxy : x = y
      · simp [hxy]
        omega
      · have hyx : ¬ y = x := fun h => hxy h.symm
        simp [hxy, hyx]
        omega

theorem indel_dist_le (a b : List Char) : indel_dist a b ≤ a.length + b.length := by
  induction a generalizing b with
  | nil => rw [indel_dist_nil_left]; simp
  | cons x xs iha =>
    cases b with
    | nil => rw [indel_dist_nil_right]; simp
    | cons y ys =>
      have h := iha (y :: ys)
      simp only [indel_dist, levenshtein_cons_cons, indelCost_delete, List.length_cons] at h ⊢
      omega

theorem Levenshtein_ratio_eq_formula (a b : List Char) (h : a.length + b.length ≠ 0) :
    Levenshtein_ratio a b = 1 - (indel_dist a b : ℚ) / ((a.length : ℚ) + b.length) := by
  rw [Levenshtein_ratio, if_neg h, Rat.divInt_eq_div]
  have hs : ((a.length : ℚ) + b.length) ≠ 0 := by
    have : (0:ℚ) < (a.length : ℚ) + b.length := by
      have : 0 < a.length + b.length := Nat.pos_of_ne_zero h
      exact_mod_cast this
    linarith
  push_cast
  field_simp

theorem Levenshtein_ratio_nonneg (a b : List Char) : 0 ≤ Levenshtein_ratio a b := by
  rw [Levenshtein_ratio]
  by_cases h : a.length + b.length = 0
  · simp [h]
  · rw [if_neg h]
    have hd := indel_dist_le a b
    apply Rat.divInt_nonneg <;> omega

theorem Levenshtein_ratio_le_one (a b : List Char) : Levenshtein_ratio a b ≤ 1 := by
  by_cases h : a.length + b.length = 0
  · simp [Levenshtein_ratio, h]
  · rw [Levenshtein_ratio_eq_formula a b h]
    have hs : (0:ℚ) ≤ (a.length : ℚ) + b.length := by positivity
    have hd : (0:ℚ) ≤ (indel_dist a b : ℚ) := by positivity
    have : 0 ≤ (indel_dist a b : ℚ) / ((a.length : ℚ) + b.length) := by positivity
    linarith

theorem Levenshtein_ratio_comm (a b : List Char) :
    Levenshtein_ratio a b = Levenshtein_ratio b a := by
  simp only [Levenshtein_ratio, indel_dist_comm b a, Nat.add_comm b.length a.length,
    add_comm (b.length : ℤ) (a.length : ℤ)]

theorem Levenshtein_ratio_self (x : List Char) : Levenshtein_ratio x x = 1 := by
  by_cases h : x.length + x.length = 0
  · simp [Levenshtein_ratio, h]
  · rw [Levenshtein_ratio_eq_formula x x h, indel_dist_self]
    simp

theorem pointThree_eq : pointThree = 3 / 10 := by
  rw [pointThree, Rat.divInt_eq_div]
  norm_num

/-! ## Lemmas: the profile search loop -/

theorem heading_scan_matched_iff (name : List Char) (hs : List Heading) (r : ℚ) :
    (heading_scan name hs (false, r)).1 = true ↔
      ∃ he ∈ hs, strContains he.classAttr xlargeClass = true ∧
        pointThree < Levenshtein_ratio he.text name := by
  induction hs generalizing r with
  | nil => simp [heading_scan]
  | cons he rest ih =>
    by_cases hm : strContains he.classAttr xlargeClass = true
    · by_cases hr : pointThree < Levenshtein_ratio he.text name
      · simp [heading_scan, hm, hr]
      · simp [heading_scan, hm, hr, ih]
    · simp [heading_scan, hm, ih]

theorem heading_scan_first_match (name : List Char) (he : Heading) (post : List Heading)
    (hm : strContains he.classAttr xlargeClass = true)
    (hr : pointThree < Levenshtein_ratio he.text name) :
    ∀ (pre : List Heading) (r : ℚ),
      (∀ he2 ∈ pre, strContains he2.classAttr xlargeClass = true →
        Levenshtein_ratio he2.text name ≤ pointThree) →
      heading_scan name (pre ++ he :: post) (false, r) =
        (true, Levenshtein_ratio he.text name) := by
  intro pre
  induction pre with
  | nil =>
    intro r _
    simp [heading_scan, hm, hr]
  | cons p ps ih =>
    intro r hpre
    by_cases hp : strContains p.classAttr xlargeClass = true
    · have hle : Levenshtein_ratio p.text name ≤ pointThree := hpre p (by simp) hp
      have hnp : ¬ pointThree < Levenshtein_ratio p.text name := not_lt.mpr hle
      simp only [List.cons_append, heading_scan, hp, if_true, hnp, decide_eq_true_eq,
        if_false, decide_eq_false hnp]
      exact ih _ fun he2 h2 => hpre he2 (by simp [h2])
    · simp only [List.cons_append, heading_scan, hp, if_false, Bool.false_eq_true]
      exact ih _ fun he2 h2 => hpre he2 (by simp [h2])

theorem search_profile_go_cons (name : List Char) (v : VariantPage) (rest : List VariantPage) :
    search_profile_go name (v :: rest) =
      if v.resultCount ≠ 0 ∧ wait_for v.profileLoads = true ∧
          (heading_scan name v.headings (false, 0)).1 = true
      then ((some v.profileUrl, (heading_scan name v.headings (false, 0)).2), 1)
      else ((search_profile_go name rest).1, (search_profile_go name rest).2 + 1) := by
  by_cases h1 : v.resultCount = 0
  · simp [search_profile_go, h1]
  · by_cases h2 : wait_for v.profileLoads = true
    · by_cases h3 : (heading_scan name v.headings (false, 0)).1 = true
      · simp only [search_profile_go, h1, if_false, h2, h3]
        simp [h1, h2, h3]
      · simp only [search_profile_go]
        simp [h1, h2, h3]
    · simp only [search_profile_go]
      simp [h1, h2]

theorem search_profile_go_nil (name : List Char) :
    search_profile_go name [] = ((none, 0), 0) := rfl

/-! ## Lemmas: session establishment -/

theorem login_flow_navigates (env : SessionEnv) (v : ℕ) (c : Credentials) :
    SessionEvent.navigate login_url ∈ (login_flow env v c).1 := by
  unfold login_flow
  split_ifs <;> simp

theorem get_login_credentials_some_obtained (env : SessionEnv) (configDir : List Char)
    (login : Option (List Char)) (cevs : List SessionEvent) (c : Credentials)
    (h : get_login_credentials env configDir login = (cevs, some c)) :
    SessionEvent.promptCredentials ∈ cevs ∨
      ∃ p, SessionEvent.readCredentialsFile p ∈ cevs := by
  unfold get_login_credentials at h
  split_ifs at h with h1 h2
  · left
    simp only [Prod.mk.injEq] at h
    simp [← h.1]
  · simp at h
  · right
    simp only [Prod.mk.injEq] at h
    obtain ⟨hc, _⟩ := h
    subst hc
    exact ⟨_, List.mem_singleton_self _⟩

theorem get_login_credentials_absent (env : SessionEnv) (configDir : List Char)
    (login : Option (List Char)) (h1 : login ≠ some []) (h2 : env.credFileExists = false) :
    get_login_credentials env configDir login =
      ([.writeTemplateFile "linkedin".toList "your@email.com".toList
        "your-password".toList], none) := by
  unfold get_login_credentials
  rw [if_neg h1, if_pos h2]

theorem credentials_phase_tried (env : SessionEnv) (configDir : List Char)
    (login : Option (List Char)) (v : ℕ) (evs : List SessionEvent)
    (h : (credentials_phase env configDir login v evs).2 ≠ .needsOperatorInput) :
    SessionEvent.navigate login_url ∈ (credentials_phase env configDir login v evs).1 ∧
      (SessionEvent.promptCredentials ∈ (credentials_phase env configDir login v evs).1 ∨
        ∃ p, SessionEvent.readCredentialsFile p ∈
          (credentials_phase env configDir login v evs).1) := by
  unfold credentials_phase at h ⊢
  rcases hg : get_login_credentials env configDir login with ⟨cevs, oc⟩
  cases oc with
  | none =>
    rw [hg] at h
    simp at h
  | some c =>
    have hobt := get_login_credentials_some_obtained env configDir login cevs c hg
    have hnav := login_flow_navigates env v c
    by_cases hv : validate_login (env.validatePages (login_flow env v c).2) = true
    · simp only [hv, if_true]
      constructor
      · simp [hnav]
      · rcases hobt with h1 | ⟨p, h1⟩
        · left; simp [h1]
        · right; exact ⟨p, by simp [h1]⟩
    · simp only [hv, if_false, Bool.false_eq_true]
      constructor
      · simp [hnav]
      · rcases hobt with h1 | ⟨p, h1⟩
        · left; simp [h1]
        · right; exact ⟨p, by simp [h1]⟩

theorem login_flow_submit_or_shortcut (env : SessionEnv) (v : ℕ) (c : Credentials) :
    (∃ u p, SessionEvent.submitLogin u p ∈ (login_flow env v c).1) ∨
      (env.loginRedirected = true ∧
        SessionEvent.validateCall true ∈ (login_flow env v c).1) := by
  unfold login_flow
  split_ifs with h1 h2
  · right
    exact ⟨h1, by simp⟩
  · left
    exact ⟨c.username, c.password, by simp⟩
  · left
    exact ⟨c.username, c.password, by simp⟩

theorem credentials_phase_submit_or_shortcut (env : SessionEnv) (configDir : List Char)
    (login : Option (List Char)) (v : ℕ) (evs : List SessionEvent)
    (h : (credentials_phase env configDir login v evs).2 ≠ .needsOperatorInput) :
    (∃ u p, SessionEvent.submitLogin u p ∈ (credentials_phase env configDir login v evs).1) ∨
      (env.loginRedirected = true ∧
        SessionEvent.validateCall true ∈ (credentials_phase env configDir login v evs).1) := by
  unfold credentials_phase at h ⊢
  rcases hg : get_login_credentials env configDir login with ⟨cevs, oc⟩
  cases oc with
  | none =>
    rw [hg] at h
    simp at h
  | some c =>
    by_cases hv : validate_login (env.validatePages (login_flow env v c).2) = true
    · simp only [hv, if_true]
      rcases login_flow_submit_or_shortcut env v c with ⟨u, p, hm⟩ | ⟨hred, hm⟩
      · exact Or.inl ⟨u, p, by simp [hm]⟩
      · exact Or.inr ⟨hred, by simp [hm]⟩
    · simp only [hv, if_false, Bool.false_eq_true]
      rcases login_flow_submit_or_shortcut env v c with ⟨u, p, hm⟩ | ⟨hred, hm⟩
      · exact Or.inl ⟨u, p, by simp [hm]⟩
      · exact Or.inr ⟨hred, by simp [hm]⟩

/-! ## Lemmas: the username pattern -/

theorem in_url_pat_ne_nil : in_url_pat ≠ [] := by decide

theorem goodSplit_nil (pre suf : List Char) : ¬ GoodSplit [] pre suf := by
  rintro ⟨heq, -⟩
  have hlen := congrArg List.length heq
  have hpat : in_url_pat.length = 28 := by decide
  simp [List.length_append, hpat] at hlen
  omega

theorem goodSplit_cons_iff (c p : Char) (rest pre suf : List Char) :
    GoodSplit (c :: rest) (p :: pre) suf ↔ c = p ∧ GoodSplit rest pre suf := by
  simp [GoodSplit, List.cons_append, List.cons.injEq, and_assoc]

theorem goodSplit_zero_unique (s suf : List Char) (h : GoodSplit s [] suf) :
    suf = s.drop in_url_pat.length ∧ in_url_pat.isPrefixOf s = true := by
  obtain ⟨heq, hne⟩ := h
  rw [List.nil_append] at heq
  constructor
  · rw [heq, List.drop_left]
  · exact List.isPrefixOf_iff_prefix.mpr ⟨suf, heq.symm⟩

theorem goodSplit_here (s : List Char) (hp : in_url_pat.isPrefixOf s = true)
    (hne : (s.drop in_url_pat.length).takeWhile (fun ch => ch != '/') ≠ []) :
    GoodSplit s [] (s.drop in_url_pat.length) := by
  obtain ⟨t, ht⟩ := List.isPrefixOf_iff_prefix.mp hp
  constructor
  · rw [List.nil_append, ← ht, List.drop_left]
  · exact hne

theorem no_goodSplit_zero_of_not_prefix (s : List Char)
    (hp : ¬ in_url_pat.isPrefixOf s = true) : ∀ suf, ¬ GoodSplit s [] suf :=
  fun suf h => hp (goodSplit_zero_unique s suf h).2

theorem no_goodSplit_zero_of_empty_seg (s : List Char)
    (hseg : (s.drop in_url_pat.length).takeWhile (fun ch => ch != '/') = []) :
    ∀ suf, ¬ GoodSplit s [] suf := by
  intro suf h
  obtain ⟨hsuf, -⟩ := goodSplit_zero_unique s suf h
  exact h.2 (by rw [hsuf, hseg])

theorem goodSplit_shift (c : Char) (rest : List Char)
    (h0 : ∀ suf, ¬ GoodSplit (c :: rest) [] suf) :
    ∀ pre suf, GoodSplit (c :: rest) pre suf ↔
      ∃ pre2, pre = c :: pre2 ∧ GoodSplit rest pre2 suf := by
  intro pre suf
  cases pre with
  | nil => simp [h0 suf]
  | cons p pre2 =>
    rw [goodSplit_cons_iff]
    constructor
    · rintro ⟨rfl, h⟩
      exact ⟨pre2, rfl, h⟩
    · rintro ⟨pre3, heq, h⟩
      cases heq
      exact ⟨rfl, h⟩

theorem username_search_spec (s : List Char) :
    (username_search s = none ↔ ∀ pre suf, ¬ GoodSplit s pre suf)
    ∧ (∀ seg, username_search s = some seg ↔
        ∃ pre suf, GoodSplit s pre suf ∧
          seg = suf.takeWhile (fun ch => ch != '/') ∧
          ∀ pre2 suf2, GoodSplit s pre2 suf2 → pre.length ≤ pre2.length) := by
  induction s with
  | nil =>
    constructor
    · simp only [username_search, true_iff]
      exact fun pre suf h => goodSplit_nil pre suf h
    · intro seg
      constructor
      · intro h
        simp [username_search] at h
      · rintro ⟨pre, suf, h, -, -⟩
        exact absurd h (goodSplit_nil pre suf)
  | cons c rest ih =>
    by_cases hp : in_url_pat.isPrefixOf (c :: rest) = true
    · by_cases hseg :
        ((c :: rest).drop in_url_pat.length).takeWhile (fun ch => ch != '/') = []
      · -- the pattern prefix matches here but captures nothing: scan moves on
        have hstep : username_search (c :: rest) = username_search rest := by
          simp [username_search, hp, hseg]
        have h0 := no_goodSplit_zero_of_empty_seg (c :: rest) hseg
        have htrans := goodSplit_shift c rest h0
        constructor
        · rw [hstep, ih.1]
          constructor
          · intro hre pre suf hgs
            obtain ⟨pre2, rfl, hg2⟩ := (htrans pre suf).mp hgs
            exact hre pre2 suf hg2
          · intro hall pre2 suf hg2
            exact hall (c :: pre2) suf ((htrans _ _).mpr ⟨pre2, rfl, hg2⟩)
        · intro seg
          rw [hstep, ih.2 seg]
          constructor
          · rintro ⟨pre, suf, hg, hsegdef, hmin⟩
            refine ⟨c :: pre, suf, (htrans _ _).mpr ⟨pre, rfl, hg⟩, hsegdef, ?_⟩
            intro pre2 suf2 hg2
            obtain ⟨pre3, rfl, hg3⟩ := (htrans pre2 suf2).mp hg2
            have := hmin pre3 suf2 hg3
            simp only [List.length_cons]
            omega
          · rintro ⟨pre, suf, hg, hsegdef, hmin⟩
            obtain ⟨pre2, rfl, hg2⟩ := (htrans pre suf).mp hg
            refine ⟨pre2, suf, hg2, hsegdef, ?_⟩
            intro pre3 suf2 hg3
            have := hmin (c :: pre3) suf2 ((htrans _ _).mpr ⟨pre3, rfl, hg3⟩)
            simpa using this
      · -- capture at this position
        have hstep : username_search (c :: rest) =
            some (((c :: rest).drop in_url_pat.length).takeWhile (fun ch => ch != '/')) := by
          simp [username_search, hp, hseg]
        have hhere := goodSplit_here (c :: rest) hp hseg
        constructor
        · rw [hstep]
          apply iff_of_false
          · simp
          · intro hall
            exact hall [] _ hhere
        · intro seg
          rw [hstep]
          constructor
          · intro hs
            have hseg2 : seg =
                ((c :: rest).drop in_url_pat.length).takeWhile (fun ch => ch != '/') :=
              (Option.some.injEq _ _).mp hs.symm
            refine ⟨[], (c :: rest).drop in_url_pat.length, hhere, hseg2, ?_⟩
            intro pre2 suf2 _
            simp
          · rintro ⟨pre, suf, hg, hsegdef, hmin⟩
            have h0 : pre.length ≤ 0 := by simpa using hmin [] _ hhere
            have hpre : pre = [] := List.length_eq_zero.mp (Nat.le_zero.mp h0)
            subst hpre
            obtain ⟨hsuf, -⟩ := goodSplit_zero_unique _ _ hg
            subst hsuf
            rw [hsegdef]
    · -- the pattern does not match at this position: scan moves on
      have hstep : username_search (c :: rest) = username_search rest := by
        simp [username_search, hp]
      have h0 := no_goodSplit_zero_of_not_prefix (c :: rest) hp
      have htrans := goodSplit_shift c rest h0
      constructor
      · rw [hstep, ih.1]
        constructor
        · intro hre pre suf hgs
          obtain ⟨pre2, rfl, hg2⟩ := (htrans pre suf).mp hgs
          exact hre pre2 suf hg2
        · intro hall pre2 suf hg2
          exact hall (c :: pre2) suf ((htrans _ _).mpr ⟨pre2, rfl, hg2⟩)
      · intro seg
        rw [hstep, ih.2 seg]
        constructor
        · rintro ⟨pre, suf, hg, hsegdef, hmin⟩
          refine ⟨c :: pre, suf, (htrans _ _).mpr ⟨pre, rfl, hg⟩, hsegdef, ?_⟩
          intro pre2 suf2 hg2
          obtain ⟨pre3, rfl, hg3⟩ := (htrans pre2 suf2).mp hg2
          have := hmin pre3 suf2 hg3
          simp only [List.length_cons]
          omega
        · rintro ⟨pre, suf, hg, hsegdef, hmin⟩
          obtain ⟨pre2, rfl, hg2⟩ := (htrans pre suf).mp hg
          refine ⟨pre2, suf, hg2, hsegdef, ?_⟩
          intro pre3 suf2 hg3
          have := hmin (c :: pre3) suf2 ((htrans _ _).mpr ⟨pre3, rfl, hg3⟩)
          simpa using this

/-! ## Lemmas: company id extraction -/

theorem company_ids_no_link (infos : List InfoItem)
    (h : ∀ x ∈ infos, x.tagName ≠ "a".toList) : company_ids infos = [] := by
  induction infos with
  | nil => rfl
  | cons ci rest ih =>
    rw [company_ids, if_neg (h ci (by simp))]
    exact ih fun x hx => h x (by simp [hx])

theorem company_ids_first_link (pre : List InfoItem) (ci : InfoItem) (post : List InfoItem)
    (hpre : ∀ x ∈ pre, x.tagName ≠ "a".toList) (hci : ci.tagName = "a".toList) :
    company_ids (pre ++ ci :: post) = company_id_findall ci.href := by
  induction pre with
  | nil => rw [List.nil_append, company_ids, if_pos hci]
  | cons p ps ih =>
    rw [List.cons_append, company_ids, if_neg (hpre p (by simp))]
    exact ih fun x hx => hpre x (by simp [hx])

theorem drop_takeWhile_length (p : Char → Bool) (l : List Char) :
    l.drop (l.takeWhile p).length = l.dropWhile p := by
  induction l with
  | nil => rfl
  | cons x xs ih =>
    by_cases hx : p x = true
    · rw [List.takeWhile_cons_of_pos hx, List.dropWhile_cons_of_pos hx, List.length_cons,
        List.drop_succ_cons]
      exact ih
    · rw [List.takeWhile_cons_of_neg hx, List.dropWhile_cons_of_neg hx]
      rfl

theorem infix_cons_lift (c : Char) (rest u : List Char) (h : u <:+: rest) :
    u <:+: c :: rest := by
  obtain ⟨p, q, hpq⟩ := h
  exact ⟨c :: p, q, by rw [← hpq]; simp⟩

theorem findall_token_shape (s : List Char) : ∀ (skip : ℕ) (t : List Char),
    t ∈ findall_pct22_go skip s →
      t ≠ [] ∧ (∀ ch ∈ t, ch.isDigit = true) ∧ (pct22 ++ t ++ pct22) <:+: s := by
  induction s with
  | nil =>
    intro skip t ht
    simp [findall_pct22_go] at ht
  | cons c rest ih =>
    intro skip t ht
    cases skip with
    | succ k =>
      simp only [findall_pct22_go] at ht
      obtain ⟨h1, h2, h3⟩ := ih k t ht
      exact ⟨h1, h2, infix_cons_lift c rest _ h3⟩
    | zero =>
      simp only [findall_pct22_go] at ht
      by_cases hp : pct22.isPrefixOf (c :: rest) = true
      · rw [if_pos hp] at ht
        by_cases hds : (rest.drop 2).takeWhile Char.isDigit = []
        · rw [if_pos hds] at ht
          obtain ⟨h1, h2, h3⟩ := ih 0 t ht
          exact ⟨h1, h2, infix_cons_lift c rest _ h3⟩
        · rw [if_neg hds] at ht
          by_cases hcl : pct22.isPrefixOf
              ((rest.drop 2).drop ((rest.drop 2).takeWhile Char.isDigit).length) = true
          · rw [if_pos hcl] at ht
            rcases List.mem_cons.mp ht with rfl | htl
            · refine ⟨hds, fun ch hch => List.mem_takeWhile_imp hch, ?_⟩
              obtain ⟨t1, ht1⟩ := List.isPrefixOf_iff_prefix.mp hp
              have h22 : ('%' :: '2' :: '2' :: t1 : List Char) = c :: rest := ht1
              have hrest : rest = '2' :: '2' :: t1 :=
                (((List.cons.injEq _ _ _ _).mp h22).2).symm
              have hafter : rest.drop 2 = t1 := by rw [hrest]; rfl
              rw [hafter] at hds hcl ⊢
              obtain ⟨t3, ht3⟩ := List.takeWhile_prefix (p := Char.isDigit) (l := t1)
              obtain ⟨t2, ht2⟩ := List.isPrefixOf_iff_prefix.mp hcl
              have hdrop : t3 = t1.drop (t1.takeWhile Char.isDigit).length := by
                have hc := congrArg (List.drop (t1.takeWhile Char.isDigit).length) ht3
                rwa [List.drop_left] at hc
              have ht23 : pct22 ++ t2 = t3 := ht2.trans hdrop.symm
              refine ⟨[], t2, ?_⟩
              calc [] ++ (pct22 ++ t1.takeWhile Char.isDigit ++ pct22) ++ t2
                  = pct22 ++ (t1.takeWhile Char.isDigit ++ (pct22 ++ t2)) := by simp
                _ = pct22 ++ (t1.takeWhile Char.isDigit ++ t3) := by rw [ht23]
                _ = pct22 ++ t1 := by rw [ht3]
                _ = c :: rest := ht1
            · obtain ⟨h1, h2, h3⟩ := ih _ t htl
              exact ⟨h1, h2, infix_cons_lift c rest _ h3⟩
          · rw [if_neg hcl] at ht
            obtain ⟨h1, h2, h3⟩ := ih 0 t ht
            exact ⟨h1, h2, infix_cons_lift c rest _ h3⟩
      · rw [if_neg hp] at ht
        obtain ⟨h1, h2, h3⟩ := ih 0 t ht
        exact ⟨h1, h2, infix_cons_lift c rest _ h3⟩

/-! ## Claims -/

/-- C1 (counterexample): the claim says validate_login passes only when both
the location check and the marker check pass.  Here the marker wait times out
(`wait_for` returns `false`), yet `validate_login` still returns `true`
because the location matches: the source never consults the wait's result. -/
theorem C1_validate_login_cex :
    validate_login ⟨mynetwork_url, false⟩ = true ∧ wait_for false = false := by
  decide

/-- C1 (amended): login validation performs the bounded marker wait but
discards its Boolean outcome; it passes exactly when the browser's resulting
location equals the expected authenticated URL, regardless of whether the
marker element appeared. -/
theorem C1_validate_login_amended (page : ValidatePage) :
    validate_login page = true ↔ page.landedUrl = mynetwork_url := by
  simp [validate_login, wait_for]

/-- C2 (counterexample): the claim says that whenever the "current" variant
returns a non-empty result list, the "past" variant is never queried.  Here
the current variant has one result whose opened profile fails the
name-similarity match, and the loop still issues the past variant's query
(two variants queried in total). -/
theorem C2_search_profile_cex :
    (⟨1, true, [⟨xlargeClass, "xxxx".toList⟩], "u1".toList⟩ : VariantPage).resultCount ≠ 0 ∧
    (search_profile "Jane Doe".toList
      ⟨1, true, [⟨xlargeClass, "xxxx".toList⟩], "u1".toList⟩
      ⟨1, true, [], "u2".toList⟩).2 = 2 := by
  decide

/-- C2 (amended): search_profile tries the "current" variant first and stops
there exactly when that variant fully succeeds (non-empty results, the
profile page loads, and a marked heading clears the threshold); any failure
inside the current variant — including non-empty results whose match fails —
falls through, so the "past" variant is queried.  At most the two variants
are ever queried. -/
theorem C2_search_profile_amended (name : List Char) (p q : VariantPage) :
    ((search_profile name p q).2 = 1 ↔
      p.resultCount ≠ 0 ∧ wait_for p.profileLoads = true ∧
        (heading_scan name p.headings (false, 0)).1 = true)
    ∧ ((search_profile name p q).2 = 1 ∨ (search_profile name p q).2 = 2) := by
  have hq : (search_profile_go name [q]).2 = 1 := by
    rw [search_profile_go_cons]
    split_ifs <;> simp [search_profile_go_nil]
  unfold search_profile
  rw [search_profile_go_cons]
  by_cases hp : p.resultCount ≠ 0 ∧ wait_for p.profileLoads = true ∧
      (heading_scan name p.headings (false, 0)).1 = true
  · rw [if_pos hp]
    simp [hp]
  · rw [if_neg hp]
    simp [hp, hq]

/-- C3 (counterexample): the claim says only the first marked heading element
determines the match and the returned score.  Here the first marked heading
rates `0` against the name, yet the scan goes on and returns a match with
score `1` taken from the second marked heading. -/
theorem C3_heading_scan_cex :
    heading_scan "Jane".toList
      [⟨xlargeClass, "xxxx".toList⟩, ⟨xlargeClass, "Jane".toList⟩] (false, 0) = (true, 1)
    ∧ strContains xlargeClass xlargeClass = true
    ∧ Levenshtein_ratio "xxxx".toList "Jane".toList = 0
    ∧ (0 : ℚ) ≠ 1 := by
  decide

/-- C3 (amended): the heading scan walks the marked heading elements in
order; the match succeeds exactly when some marked element's similarity
strictly exceeds the threshold, and then the returned score is that of the
first such element — marked elements failing the threshold do not stop the
scan, they only overwrite the running score. -/
theorem C3_heading_scan_amended :
    (∀ (name : List Char) (he : Heading) (post pre : List Heading),
      (∀ he2 ∈ pre, strContains he2.classAttr xlargeClass = true →
        Levenshtein_ratio he2.text name ≤ pointThree) →
      strContains he.classAttr xlargeClass = true →
      pointThree < Levenshtein_ratio he.text name →
      heading_scan name (pre ++ he :: post) (false, 0) =
        (true, Levenshtein_ratio he.text name))
    ∧ (∀ (name : List Char) (hs : List Heading),
      (heading_scan name hs (false, 0)).1 = true ↔
        ∃ he ∈ hs, strContains he.classAttr xlargeClass = true ∧
          pointThree < Levenshtein_ratio he.text name) := by
  constructor
  · intro name he post pre hpre hm hr
    exact heading_scan_first_match name he post hm hr pre 0 hpre
  · intro name hs
    exact heading_scan_matched_iff name hs 0

/-- C3 (witness): the amended scan property at a concrete input: a failing
marked heading followed by a passing one yields the passing one's score. -/
theorem C3_heading_scan_amended_witness :
    heading_scan "Jane".toList
      [⟨xlargeClass, "xxxx".toList⟩, ⟨xlargeClass, "Jane".toList⟩] (false, 0) =
      (true, Levenshtein_ratio "Jane".toList "Jane".toList) :=
  C3_heading_scan_amended.1 "Jane".toList ⟨xlargeClass, "Jane".toList⟩ []
    [⟨xlargeClass, "xxxx".toList⟩] (by decide) (by decide) (by decide)

/-- C4 (counterexample): the claim says the LoginFailed outcome is reachable
only after a credential login attempt that obtained credentials *and
submitted them*.  Here the browser is redirected off the login page and the
pre-check validation inside `login` passes ("Already logged in", so nothing
is submitted), yet the final validation fails: the run ends in the terminal
login failure with no submit event in its trace. -/
theorem C4_login_before_failure_cex :
    activate_session
        ⟨false, true, [], [], "u".toList, "pw".toList,
          (fun n => if n = 0 then ⟨mynetwork_url, true⟩ else ⟨[], false⟩), true, 0, false⟩
        "cfg".toList (some "p".toList) =
      ([.readCredentialsFile "p".toList, .navigate login_url, .validateCall true,
        .validateCall false], .loginFailed)
    ∧ ∀ u p, SessionEvent.submitLogin u p ∉
        [SessionEvent.readCredentialsFile "p".toList, SessionEvent.navigate login_url,
         SessionEvent.validateCall true, SessionEvent.validateCall false] := by
  constructor
  · decide
  · intro u p
    simp

/-- C4 (amended): whenever session establishment ends in the terminal login
failure, the explicit credential login procedure ran first: credentials were
obtained (interactively or from the credentials file), the login page was
navigated to, and either the credentials were actually submitted or the
login procedure skipped the submission because its pre-check (browser
redirected off the login page and validation passing) considered the session
already authenticated.  And in every run where cookie restoration was
attempted and its validation failed, the flow goes on to that login
procedure unless it halts for operator input on a missing credentials
file. -/
theorem C4_login_before_failure_amended :
    (∀ (env : SessionEnv) (cd : List Char) (lg : Option (List Char)),
      (activate_session env cd lg).2 = .loginFailed →
      SessionEvent.navigate login_url ∈ (activate_session env cd lg).1 ∧
        (SessionEvent.promptCredentials ∈ (activate_session env cd lg).1 ∨
          ∃ p, SessionEvent.readCredentialsFile p ∈ (activate_session env cd lg).1) ∧
        ((∃ u p, SessionEvent.submitLogin u p ∈ (activate_session env cd lg).1) ∨
          (env.loginRedirected = true ∧
            SessionEvent.validateCall true ∈ (activate_session env cd lg).1)))
    ∧ (∀ (env : SessionEnv) (cd : List Char),
      env.cookieFileExists = true →
      validate_login (env.validatePages 0) = false →
      (activate_session env cd none).2 ≠ .needsOperatorInput →
      SessionEvent.navigate login_url ∈ (activate_session env cd none).1) := by
  constructor
  · intro env cd lg hfail
    unfold activate_session at hfail ⊢
    by_cases hc : lg = none ∧ env.cookieFileExists = true
    · rw [if_pos hc] at hfail ⊢
      by_cases hv : validate_login (env.validatePages 0) = true
      · rw [if_pos hv] at hfail
        simp at hfail
      · rw [if_neg hv] at hfail ⊢
        obtain ⟨hnav, hobt⟩ := credentials_phase_tried env cd lg 1 _ (by rw [hfail]; simp)
        exact ⟨hnav, hobt,
          credentials_phase_submit_or_shortcut env cd lg 1 _ (by rw [hfail]; simp)⟩
    · rw [if_neg hc] at hfail ⊢
      obtain ⟨hnav, hobt⟩ := credentials_phase_tried env cd lg 0 _ (by rw [hfail]; simp)
      exact ⟨hnav, hobt,
        credentials_phase_submit_or_shortcut env cd lg 0 _ (by rw [hfail]; simp)⟩
  · intro env cd h1 h2 h3
    have hc : (none : Option (List Char)) = none ∧ env.cookieFileExists = true := ⟨rfl, h1⟩
    have hv : ¬ validate_login (env.validatePages 0) = true := by simp [h2]
    unfold activate_session at h3 ⊢
    rw [if_pos hc, if_neg hv] at h3 ⊢
    exact (credentials_phase_tried env cd none 1 _ h3).1

/-- C4 (witness): concrete runs of the amended property — one where the
submission really happens and the final validation fails so the outcome is
the terminal failure, and one where cookies exist but their validation fails
and the flow still reaches the login page. -/
theorem C4_login_before_failure_amended_witness :
    ((activate_session
        ⟨false, true, [], [], "u".toList, "pw".toList, (fun _ => ⟨[], false⟩), false, 0, false⟩
        "cfg".toList (some "p".toList)).2 = .loginFailed ∧
      SessionEvent.navigate login_url ∈ (activate_session
        ⟨false, true, [], [], "u".toList, "pw".toList, (fun _ => ⟨[], false⟩), false, 0, false⟩
        "cfg".toList (some "p".toList)).1 ∧
        (SessionEvent.promptCredentials ∈ (activate_session
          ⟨false, true, [], [], "u".toList, "pw".toList, (fun _ => ⟨[], false⟩), false, 0, false⟩
          "cfg".toList (some "p".toList)).1 ∨
          ∃ p, SessionEvent.readCredentialsFile p ∈ (activate_session
            ⟨false, true, [], [], "u".toList, "pw".toList, (fun _ => ⟨[], false⟩), false, 0, false⟩
            "cfg".toList (some "p".toList)).1) ∧
        ((∃ u p, SessionEvent.submitLogin u p ∈ (activate_session
            ⟨false, true, [], [], "u".toList, "pw".toList, (fun _ => ⟨[], false⟩), false, 0, false⟩
            "cfg".toList (some "p".toList)).1) ∨
          ((⟨false, true, [], [], "u".toList, "pw".toList, (fun _ => ⟨[], false⟩), false, 0,
              false⟩ : SessionEnv).loginRedirected = true ∧
            SessionEvent.validateCall true ∈ (activate_session
              ⟨false, true, [], [], "u".toList, "pw".toList, (fun _ => ⟨[], false⟩), false, 0,
                false⟩ "cfg".toList (some "p".toList)).1)))
    ∧ SessionEvent.navigate login_url ∈ (activate_session
        ⟨true, true, [], [], "u".toList, "pw".toList, (fun _ => ⟨[], false⟩), false, 0, false⟩
        "cfg".toList none).1 := by
  refine ⟨⟨by decide,
    C4_login_before_failure_amended.1 _ "cfg".toList (some "p".toList) (by decide)⟩, ?_⟩
  exact C4_login_before_failure_amended.2 _ "cfg".toList rfl (by decide) (by decide)

/-- C5: when credentials are to be read from a file (default or explicit
path) and the file is absent, the run writes the placeholder template
(section `linkedin`, username `your@email.com`, password `your-password`),
halts cleanly reporting the operator-input outcome, and never submits a
login on that path. -/
theorem C5_template_halt (env : SessionEnv) (cd : List Char) (lg : Option (List Char))
    (h1 : lg ≠ some []) (h2 : env.credFileExists = false)
    (h3 : lg = none → env.cookieFileExists = false ∨
      validate_login (env.validatePages 0) = false) :
    (activate_session env cd lg).2 = .needsOperatorInput
    ∧ SessionEvent.writeTemplateFile "linkedin".toList "your@email.com".toList
        "your-password".toList ∈ (activate_session env cd lg).1
    ∧ ∀ u p, SessionEvent.submitLogin u p ∉ (activate_session env cd lg).1 := by
  have habs := get_login_credentials_absent env cd lg h1 h2
  unfold activate_session
  by_cases hc : lg = none ∧ env.cookieFileExists = true
  · have hv : ¬ validate_login (env.validatePages 0) = true := by
      rcases h3 hc.1 with h | h
      · rw [hc.2] at h
        cases h
      · simp [h]
    rw [if_pos hc, if_neg hv]
    unfold credentials_phase
    rw [habs]
    refine ⟨rfl, by simp, ?_⟩
    intro u p
    simp
  · rw [if_neg hc]
    unfold credentials_phase
    rw [habs]
    refine ⟨rfl, by simp, ?_⟩
    intro u p
    simp

/-- C5 (witness): a first run with neither cookie file nor credentials file:
the template is written, the outcome asks for operator input, and no login
submission happens. -/
theorem C5_template_halt_witness :
    (activate_session
        ⟨false, false, [], [], [], [], (fun _ => ⟨[], false⟩), false, 0, false⟩
        "cfg".toList none).2 = .needsOperatorInput
    ∧ SessionEvent.writeTemplateFile "linkedin".toList "your@email.com".toList
        "your-password".toList ∈ (activate_session
          ⟨false, false, [], [], [], [], (fun _ => ⟨[], false⟩), false, 0, false⟩
          "cfg".toList none).1
    ∧ ∀ u p, SessionEvent.submitLogin u p ∉ (activate_session
        ⟨false, false, [], [], [], [], (fun _ => ⟨[], false⟩), false, 0, false⟩
        "cfg".toList none).1 :=
  C5_template_halt _ "cfg".toList none (by decide) rfl (fun _ => Or.inl rfl)

/-- C6: the match threshold is strict: a marked heading whose similarity
against the target name is exactly `0.30` does not count as a match (the
scan state stays unmatched), while any marked heading rating strictly above
`0.30` at the head of the scanned headings makes search_profile return
immediately with the profile URL and that score, querying no further
variant. -/
theorem C6_threshold_strict :
    (∀ (name : List Char) (he : Heading),
      strContains he.classAttr xlargeClass = true →
      Levenshtein_ratio he.text name = 3 / 10 →
      heading_scan name [he] (false, 0) = (false, 3 / 10))
    ∧ (∀ (name : List Char) (v q : VariantPage) (he : Heading) (rest : List Heading),
      v.resultCount ≠ 0 → v.profileLoads = true →
      v.headings = he :: rest →
      strContains he.classAttr xlargeClass = true →
      3 / 10 < Levenshtein_ratio he.text name →
      search_profile name v q =
        ((some v.profileUrl, Levenshtein_ratio he.text name), 1)) := by
  constructor
  · intro name he hm hr
    simp [heading_scan, hm, hr, pointThree_eq, lt_self_iff_false]
  · intro name v q he rest h1 h2 hheads hm hr
    have hr2 : pointThree < Levenshtein_ratio he.text name := by
      rw [pointThree_eq]
      exact hr
    have hscan : heading_scan name v.headings (false, 0) =
        (true, Levenshtein_ratio he.text name) := by
      rw [hheads]
      have := heading_scan_first_match name he rest hm hr2 [] 0 (by simp)
      simpa using this
    unfold search_profile
    rw [search_profile_go_cons, if_pos ⟨h1, h2, by rw [hscan]⟩, hscan]

/-- C6 (witness): concrete ratings on either side of the threshold: a heading
rating exactly `0.30` (strings of lengths 10 and 10 at indel distance 14) is
rejected, and a rating of `1` makes search_profile return at once. -/
theorem C6_threshold_strict_witness :
    Levenshtein_ratio "aaabbbbbbb".toList "aaaccccccc".toList = 3 / 10
    ∧ heading_scan "aaaccccccc".toList
        [⟨xlargeClass, "aaabbbbbbb".toList⟩] (false, 0) = (false, 3 / 10)
    ∧ (3 / 10 : ℚ) < Levenshtein_ratio "ab".toList "ab".toList
    ∧ search_profile "ab".toList
        ⟨1, true, [⟨xlargeClass, "ab".toList⟩], "url".toList⟩ ⟨0, false, [], []⟩ =
        ((some "url".toList, Levenshtein_ratio "ab".toList "ab".toList), 1) := by
  have hr1 : Levenshtein_ratio "aaabbbbbbb".toList "aaaccccccc".toList = 3 / 10 :=
    (show Levenshtein_ratio "aaabbbbbbb".toList "aaaccccccc".toList = Rat.divInt 3 10
      by decide).trans pointThree_eq
  have hr2 : (3 / 10 : ℚ) < Levenshtein_ratio "ab".toList "ab".toList := by
    rw [show Levenshtein_ratio "ab".toList "ab".toList = 1 from by decide]
    norm_num
  exact ⟨hr1, C6_threshold_strict.1 "aaaccccccc".toList _ (by decide) hr1, hr2,
    C6_threshold_strict.2 "ab".toList _ _ ⟨xlargeClass, "ab".toList⟩ [] (by decide) rfl rfl
      (by decide) hr2⟩

/-- C7: company id extraction: on a URL carrying `%22123456%22` and then
`%22987654%22` the extraction yields `["123456", "987654"]` in order; every
extracted token is a non-empty run of digits enclosed between literal `%22`
delimiters of the URL; per company only the first info-list item that is a
link is scanned; and with no link item the ids stay empty. -/
theorem C7_company_ids :
    company_id_findall
        ("https://www.linkedin.com/search/results/people/?currentCompany=" ++
          "%5B%22123456%22%2C%22987654%22%5D").toList =
      ["123456".toList, "987654".toList]
    ∧ (∀ (url t : List Char), t ∈ company_id_findall url →
        t ≠ [] ∧ (∀ ch ∈ t, ch.isDigit = true) ∧ (pct22 ++ t ++ pct22) <:+: url)
    ∧ (∀ (pre : List InfoItem) (ci : InfoItem) (post : List InfoItem),
        (∀ x ∈ pre, x.tagName ≠ "a".toList) → ci.tagName = "a".toList →
        company_ids (pre ++ ci :: post) = company_id_findall ci.href)
    ∧ (∀ infos : List InfoItem,
        (∀ x ∈ infos, x.tagName ≠ "a".toList) → company_ids infos = []) := by
  refine ⟨by decide, ?_, company_ids_first_link, company_ids_no_link⟩
  intro url t ht
  exact findall_token_shape url 0 t ht

/-- C7 (witness): the extraction and the first-link selection at concrete
inputs: the first `a`-tagged info item's URL is the one scanned, a preceding
non-link item is skipped, and a link-free list leaves the ids empty. -/
theorem C7_company_ids_witness :
    company_ids
        [⟨"div".toList, []⟩,
         ⟨"a".toList, "x%22123%22".toList⟩,
         ⟨"a".toList, "x%22999%22".toList⟩] = ["123".toList]
    ∧ company_ids [⟨"div".toList, []⟩] = []
    ∧ ("123456".toList ≠ [] ∧
        (∀ ch ∈ ("123456".toList : List Char), ch.isDigit = true) ∧
        (pct22 ++ "123456".toList ++ pct22) <:+: "a_%22123456%22_b".toList) := by
  refine ⟨?_, ?_, ?_⟩
  · rw [show ([⟨"div".toList, []⟩, ⟨"a".toList, "x%22123%22".toList⟩,
        ⟨"a".toList, "x%22999%22".toList⟩] : List InfoItem) =
        [⟨"div".toList, []⟩] ++ (⟨"a".toList, "x%22123%22".toList⟩ : InfoItem) ::
          [⟨"a".toList, "x%22999%22".toList⟩] from rfl]
    rw [C7_company_ids.2.2.1 [⟨"div".toList, []⟩] ⟨"a".toList, "x%22123%22".toList⟩
      [⟨"a".toList, "x%22999%22".toList⟩] (by decide) (by decide)]
    decide
  · exact C7_company_ids.2.2.2 [⟨"div".toList, []⟩] (by decide)
  · exact C7_company_ids.2.1 "a_%22123456%22_b".toList "123456".toList (by decide)

/-- C8: whenever neither query variant produces a marked heading that clears
the threshold — including variants with no results, variants whose profile
page fails to load, and variants whose results all fail the match —
search_profile returns the sentinel pair `(None, 0.0)` (it is a total
function, so no error is raised). -/
theorem C8_not_found_sentinel (name : List Char) (p q : VariantPage)
    (hp : p.resultCount = 0 ∨ wait_for p.profileLoads = false ∨
      ∀ he ∈ p.headings, strContains he.classAttr xlargeClass = true →
        Levenshtein_ratio he.text name ≤ pointThree)
    (hq : q.resultCount = 0 ∨ wait_for q.profileLoads = false ∨
      ∀ he ∈ q.headings, strContains he.classAttr xlargeClass = true →
        Levenshtein_ratio he.text name ≤ pointThree) :
    (search_profile name p q).1 = (none, 0) := by
  have hfailing : ∀ (v : VariantPage),
      (v.resultCount = 0 ∨ wait_for v.profileLoads = false ∨
        ∀ he ∈ v.headings, strContains he.classAttr xlargeClass = true →
          Levenshtein_ratio he.text name ≤ pointThree) →
      ¬ (v.resultCount ≠ 0 ∧ wait_for v.profileLoads = true ∧
        (heading_scan name v.headings (false, 0)).1 = true) := by
    rintro v hv ⟨h1, h2, h3⟩
    rcases hv with h | h | h
    · exact h1 h
    · rw [h2] at h
      cases h
    · rw [heading_scan_matched_iff] at h3
      obtain ⟨he, hmem, hmk, hlt⟩ := h3
      exact absurd hlt (not_lt.mpr (h he hmem hmk))
  unfold search_profile
  rw [search_profile_go_cons, if_neg (hfailing p hp)]
  dsimp only
  rw [search_profile_go_cons, if_neg (hfailing q hq), search_profile_go_nil]

/-- C8 (witness): both variants return results, both profiles load, but no
heading clears `0.30`: the result is the sentinel `(None, 0.0)`. -/
theorem C8_not_found_sentinel_witness :
    (search_profile "Jane Doe".toList
      ⟨1, true, [⟨xlargeClass, "xxxx".toList⟩], "u1".toList⟩
      ⟨2, true, [⟨xlargeClass, "yyyy".toList⟩], "u2".toList⟩).1 = (none, 0) :=
  C8_not_found_sentinel "Jane Doe".toList
    ⟨1, true, [⟨xlargeClass, "xxxx".toList⟩], "u1".toList⟩
    ⟨2, true, [⟨xlargeClass, "yyyy".toList⟩], "u2".toList⟩
    (Or.inr (Or.inr (by decide))) (Or.inr (Or.inr (by decide)))

/-- C9: the similarity ratio used for identity confirmation lies in `[0,1]`,
is symmetric in its two arguments, and rates every non-empty string as `1.0`
against itself. -/
theorem C9_ratio_properties :
    (∀ a b : List Char, 0 ≤ Levenshtein_ratio a b ∧ Levenshtein_ratio a b ≤ 1 ∧
      Levenshtein_ratio a b = Levenshtein_ratio b a)
    ∧ (∀ x : List Char, x ≠ [] → Levenshtein_ratio x x = 1) :=
  ⟨fun a b => ⟨Levenshtein_ratio_nonneg a b, Levenshtein_ratio_le_one a b,
    Levenshtein_ratio_comm a b⟩,
   fun x _ => Levenshtein_ratio_self x⟩

/-- C9 (witness): the ratio properties at concrete strings, with the
non-emptiness hypothesis discharged at `"ab"`. -/
theorem C9_ratio_properties_witness :
    (0 ≤ Levenshtein_ratio "ab".toList "cd".toList ∧
      Levenshtein_ratio "ab".toList "cd".toList ≤ 1 ∧
      Levenshtein_ratio "ab".toList "cd".toList = Levenshtein_ratio "cd".toList "ab".toList)
    ∧ ("ab".toList ≠ ([] : List Char) ∧ Levenshtein_ratio "ab".toList "ab".toList = 1) :=
  ⟨C9_ratio_properties.1 "ab".toList "cd".toList,
   by decide, C9_ratio_properties.2 "ab".toList (by decide)⟩

/-- C10: get_username_from_url returns the non-empty run of non-slash
characters that follows the literal prefix at the first position of the
input where the full pattern matches (the captured group runs to the next
slash or to the end), and returns `None` exactly when no position of the
input matches the pattern.  This operation is not covered by the spec. -/
theorem C10_get_username_from_url (s : List Char) :
    (get_username_from_url s = none ↔ ∀ pre suf, ¬ GoodSplit s pre suf)
    ∧ (∀ seg, get_username_from_url s = some seg ↔
        ∃ pre suf, GoodSplit s pre suf ∧
          seg = suf.takeWhile (fun ch => ch != '/') ∧
          ∀ pre2 suf2, GoodSplit s pre2 suf2 → pre.length ≤ pre2.length) :=
  username_search_spec s
